import Mathlib

/-!
Verification of the bullish-inertia indicator engine and rotational backtest
simulator (src/inercia.py) against its natural-language specification.

Modelling conventions:
* pandas/numpy float values are modelled by `PVal`: an exact rational for
  finite floats plus the IEEE special values (+inf, -inf, NaN).  Arithmetic
  follows IEEE-754 semantics (NaN propagation, signed infinities, x/0).
  Finite arithmetic is exact rational arithmetic; float rounding error is
  idealised away, as the spec formulas are stated over real numbers.
* a pandas Series is modelled positionally as a function from the bar
  position to a `PVal`; out-of-range reads yield NaN (a missing value).
  All claims are evaluated at in-range positions only.
* a monthly dataframe row is a `DBar` (date as a natural number, plus the
  OHLC fields used by the code; Open and Volume are never read by the
  indicator or the simulator and are omitted).
* the data-retrieval boundary (yfinance download and resampling) is external
  per the spec; functions that the source code feeds from downloads take the
  downloaded map `datos : String -> Option (List DBar)` as an argument, and
  the universe / benchmark constants are passed explicitly.
-/

/-- IEEE-style value of a pandas float cell: a finite rational, a signed
infinity, or NaN. -/
inductive PVal where
  | num (q : ℚ)
  | pinf
  | ninf
  | nan
deriving DecidableEq, Repr

namespace PVal

/-- IEEE addition. -/
def add : PVal → PVal → PVal
  | num a, num b => num (a + b)
  | num _, pinf => pinf
  | num _, ninf => ninf
  | pinf, num _ => pinf
  | ninf, num _ => ninf
  | pinf, pinf => pinf
  | ninf, ninf => ninf
  | pinf, ninf => nan
  | ninf, pinf => nan
  | nan, _ => nan
  | _, nan => nan

/-- IEEE subtraction. -/
def sub : PVal → PVal → PVal
  | num a, num b => num (a - b)
  | num _, pinf => ninf
  | num _, ninf => pinf
  | pinf, num _ => pinf
  | ninf, num _ => ninf
  | pinf, pinf => nan
  | ninf, ninf => nan
  | pinf, ninf => pinf
  | ninf, pinf => ninf
  | nan, _ => nan
  | _, nan => nan

/-- IEEE multiplication. -/
def mul : PVal → PVal → PVal
  | num a, num b => num (a * b)
  | num a, pinf => if a = 0 then nan else if 0 < a then pinf else ninf
  | num a, ninf => if a = 0 then nan else if 0 < a then ninf else pinf
  | pinf, num b => if b = 0 then nan else if 0 < b then pinf else ninf
  | ninf, num b => if b = 0 then nan else if 0 < b then ninf else pinf
  | pinf, pinf => pinf
  | ninf, ninf => pinf
  | pinf, ninf => ninf
  | ninf, pinf => ninf
  | nan, _ => nan
  | _, nan => nan

/-- IEEE division (x / 0 gives a signed infinity or NaN, as numpy does). -/
def div : PVal → PVal → PVal
  | num a, num b =>
      if b = 0 then (if a = 0 then nan else if 0 < a then pinf else ninf)
      else num (a / b)
  | num _, pinf => num 0
  | num _, ninf => num 0
  | pinf, num b => if 0 ≤ b then pinf else ninf
  | ninf, num b => if 0 ≤ b then ninf else pinf
  | pinf, pinf => nan
  | ninf, ninf => nan
  | pinf, ninf => nan
  | ninf, pinf => nan
  | nan, _ => nan
  | _, nan => nan

/-- IEEE absolute value. -/
def abs : PVal → PVal
  | num a => num |a|
  | pinf => pinf
  | ninf => pinf
  | nan => nan

/-- pandas missing-value test: only NaN is missing (infinities are not). -/
def isna : PVal → Bool
  | nan => true
  | _ => false

end PVal

/-- IEEE strict less-than as a Boolean (all comparisons with NaN are false),
the comparison Python and numpy use on floats. -/
def pvLT : PVal → PVal → Bool
  | .num a, .num b => decide (a < b)
  | .num _, .pinf => true
  | .num _, .ninf => false
  | .ninf, .num _ => true
  | .ninf, .pinf => true
  | .ninf, .ninf => false
  | .pinf, _ => false
  | .nan, _ => false
  | _, .nan => false

/-- Python `max(0, v)` on floats: `v` when `0 < v`, else `0`. -/
def pymax0 (v : PVal) : PVal := if pvLT (.num 0) v then v else .num 0

/-- One row of a monthly dataframe: the date (an abstract ordinal) and the
price fields the core reads. -/
structure DBar where
  date : ℕ
  high : ℚ
  low : ℚ
  close : ℚ
deriving DecidableEq, Repr

/-- Rational accessor for the close column (spec-level formulas). -/
def cQ (df : List DBar) (t : ℕ) : ℚ := (df.getD t ⟨0, 0, 0, 0⟩).close

/-- Rational accessor for the high column (spec-level formulas). -/
def hQ (df : List DBar) (t : ℕ) : ℚ := (df.getD t ⟨0, 0, 0, 0⟩).high

/-- Rational accessor for the low column (spec-level formulas). -/
def lQ (df : List DBar) (t : ℕ) : ℚ := (df.getD t ⟨0, 0, 0, 0⟩).low

/-- The Close column of a dataframe as a pandas series. -/
def closeF (df : List DBar) (t : ℕ) : PVal :=
  match df[t]? with
  | some b => .num b.close
  | none => .nan

/-- The High column of a dataframe as a pandas series. -/
def highF (df : List DBar) (t : ℕ) : PVal :=
  match df[t]? with
  | some b => .num b.high
  | none => .nan

/-- The Low column of a dataframe as a pandas series. -/
def lowF (df : List DBar) (t : ℕ) : PVal :=
  match df[t]? with
  | some b => .num b.low
  | none => .nan

/-- pandas `Series.shift(n)`: position `t` holds the value originally at
`t - n`, NaN for the first `n` positions. -/
def shiftP (n : ℕ) (s : ℕ → PVal) : ℕ → PVal :=
  fun t => if t < n then .nan else s (t - n)

/-- The values inside the rolling window of size `n` ending at `t`. -/
def windowVals (s : ℕ → PVal) (n t : ℕ) : List PVal :=
  (List.range n).map (fun i => s (t - i))

/-- pandas `Series.rolling(window=n).mean()`: NaN until the window is full or
while the window contains a NaN observation, else the window mean. -/
def rollingMean (n : ℕ) (s : ℕ → PVal) : ℕ → PVal :=
  fun t =>
    if t + 1 < n then .nan
    else if (windowVals s n t).any PVal.isna then .nan
    else ((windowVals s n t).foldl PVal.add (.num 0)).div (.num n)

/-- pandas rowwise max of two cells with `skipna=True` (the default of
`DataFrame.max(axis=1)`): a NaN operand is skipped, not propagated. -/
def nanmax2 (a b : PVal) : PVal :=
  if a.isna then b else if b.isna then a else if pvLT a b then b else a

/-- Parameter N of the source (`N = 8`, fast ROC period). -/
def N : ℕ := 8

/-- Parameter M of the source (`M = 10`, slow ROC period). -/
def M : ℕ := 10

/-- `calcular_atr` of the source: true range as the rowwise max of the three
range measures, then a simple (not Wilder) rolling mean over `period`. -/
def calcular_atr (high low close : ℕ → PVal) (period : ℕ) : ℕ → PVal :=
  let tr1 := fun t => (high t).sub (low t)
  let tr2 := fun t => ((high t).sub (shiftP 1 close t)).abs
  let tr3 := fun t => ((low t).sub (shiftP 1 close t)).abs
  let true_range := fun t => nanmax2 (nanmax2 (tr1 t) (tr2 t)) (tr3 t)
  rollingMean period true_range

/-- `calcular_roc` of the source: `((C - C.shift(n)) / C.shift(n)) * 100`. -/
def calcular_roc (serie : ℕ → PVal) (periodo : ℕ) : ℕ → PVal :=
  fun t =>
    (((serie t).sub (shiftP periodo serie t)).div (shiftP periodo serie t)).mul (.num 100)

/-- `calcular_inercia_alcista` of the source: the raw composite indicator
series `F1 / F2` with `F1 = ROC(C,N)*0.4 + ROC(C,M)*0.2` and
`F2 = (ATR(14) / MA(C,14)) * 0.4`. -/
def calcular_inercia_alcista (df : List DBar) : ℕ → PVal :=
  let close := closeF df
  let high := highF df
  let low := lowF df
  let roc3 := fun t => (calcular_roc close N t).mul (.num 0.4)
  let roc4 := fun t => (calcular_roc close M t).mul (.num 0.2)
  let f1 := fun t => (roc3 t).add (roc4 t)
  let atr14 := calcular_atr high low close 14
  let ma14 := rollingMean 14 close
  let f2 := fun t => ((atr14 t).div (ma14 t)).mul (.num 0.4)
  fun t => (f1 t).div (f2 t)

/-- Round half to even of a rational (Python round on an exact value). -/
def roundHalfEven (q : ℚ) : ℤ :=
  if q - ⌊q⌋ = (1 : ℚ) / 2 then (if ⌊q⌋ % 2 = 0 then ⌊q⌋ else ⌊q⌋ + 1)
  else round q

/-- Python `round(x, 2)` on an exact value. -/
def round2 (q : ℚ) : ℚ := (roundHalfEven (q * 100) : ℚ) / 100

/-- Python `round(v, 2)` on a float cell: infinities and NaN pass through. -/
def round2P : PVal → PVal
  | .num q => .num (round2 q)
  | v => v

/-- Stable insert of `x` into a list already sorted in descending key order:
walk past the strictly larger keys, stop at the first key not larger. -/
def insertDesc {α : Type} (key : α → PVal) (x : α) : List α → List α
  | [] => [x]
  | y :: ys => if pvLT (key x) (key y) then y :: insertDesc key x ys else x :: y :: ys

/-- Stable sort by key in descending order; this is the specification of
Python `list.sort(key=..., reverse=True)` / `sorted(..., reverse=True)`
(a stable descending sort: the sorted-descending, stability-preserving
permutation is unique, so any correct implementation equals this one). -/
def sortDesc {α : Type} (key : α → PVal) : List α → List α
  | [] => []
  | x :: xs => insertDesc key x (sortDesc key xs)

/-- One row of the live result list built by `calcular_inercia_mensual`;
presentation-only fields of the source dict (roc3, roc4, f1, f2, precio,
fecha) are omitted, the claims never read them. -/
structure LiveRow where
  ticker : String
  inercia : PVal
  score : PVal
deriving DecidableEq, Repr

/-- The live row computed for one ticker (body of the download loop of
`calcular_inercia_mensual`): skip when there is no data or fewer than 15
monthly bars, skip when the final indicator value is NaN, else record the
rounded indicator and the rounded score `max(0, inercia)`. -/
def liveRowFor (datos : String → Option (List DBar)) (tk : String) : Option LiveRow :=
  (datos tk).bind fun df =>
    if df.length < 15 then none
    else
      let ia := calcular_inercia_alcista df (df.length - 1)
      if ia.isna then none
      else some ⟨tk, round2P ia, round2P (pymax0 ia)⟩

/-- `calcular_inercia_mensual` of the source, with the download boundary
abstracted into `datos` and the universe `etfs` passed explicitly: collect
the per-ticker rows in universe order, then sort by the (rounded) raw
indicator value descending (`sorted(resultados, key=lambda x: x['inercia'],
reverse=True)`). -/
def calcular_inercia_mensual (datos : String → Option (List DBar)) (etfs : List String) :
    List LiveRow :=
  sortDesc (fun r => r.inercia) (etfs.filterMap (liveRowFor datos))

/-- The ranking entry for one ticker at one date (body of the rankings loop
in `ejecutar_backtest`): skip a ticker without data, skip when the date is
not in its index, skip a NaN indicator value, keep `(ticker, max(0, valor))`
only when that score is strictly positive. -/
def entryFor (datos : String → Option (List DBar)) (fecha : ℕ) (tk : String) :
    Option (String × PVal) :=
  (datos tk).bind fun df =>
    (df.findIdx? (fun b => decide (b.date = fecha))).bind fun p =>
      let valor := calcular_inercia_alcista df p
      if valor.isna then none
      else if pvLT (.num 0) (pymax0 valor) then some (tk, pymax0 valor) else none

/-- The unsorted eligible rankings list at one date, in universe order. -/
def eligiblesAt (datos : String → Option (List DBar)) (etfs : List String) (fecha : ℕ) :
    List (String × PVal) :=
  etfs.filterMap (entryFor datos fecha)

/-- The new top holdings after the rebalance at `fecha`: sort the eligible
list by score descending and keep the first `top_n` tickers. -/
def nuevosTopAt (datos : String → Option (List DBar)) (etfs : List String)
    (top_n : ℕ) (fecha : ℕ) : List String :=
  ((sortDesc Prod.snd (eligiblesAt datos etfs fecha)).take top_n).map Prod.fst

/-- pandas `Series.pct_change()` of the Close column at position `p`. -/
def pctChangeAt (df : List DBar) (p : ℕ) : PVal :=
  if p = 0 then .nan
  else ((closeF df p).sub (closeF df (p - 1))).div (closeF df (p - 1))

/-- The realized close-to-close return of `tk` at the month labelled
`fecha_sig`, as the simulator reads it: `None` when the ticker has no data,
the label is missing from its index, or the return value is NaN. -/
def realizedReturn (datos : String → Option (List DBar)) (fecha_sig : ℕ)
    (tk : String) : Option PVal :=
  (datos tk).bind fun df =>
    (df.findIdx? (fun b => decide (b.date = fecha_sig))).bind fun p =>
      let r := pctChangeAt df p
      if r.isna then none else some r

/-- The defined realized returns of the held tickers (the `retornos_mes`
list): undefined returns are dropped, never counted as zero. -/
def retornosMes (datos : String → Option (List DBar)) (held : List String)
    (fecha_sig : ℕ) : List PVal :=
  held.filterMap (realizedReturn datos fecha_sig)

/-- numpy `np.mean` of a list of float cells. -/
def npMean (l : List PVal) : PVal :=
  (l.foldl PVal.add (.num 0)).div (.num l.length)

/-- The benchmark pct-change return looked up by date label. -/
def benchRetAt (bdf : List DBar) (fecha : ℕ) : PVal :=
  ((bdf.findIdx? (fun b => decide (b.date = fecha))).map (pctChangeAt bdf)).getD .nan

/-- One entry of the trade log. -/
structure Trade where
  fecha : ℕ
  entradas : List String
  salidas : List String
  cartera : List String
deriving DecidableEq, Repr

/-- The mutable state of the simulation loop of `ejecutar_backtest`. -/
structure SimState where
  portfolio_value : List PVal
  benchmark_value : List PVal
  posiciones : List String
  trades : List Trade
  fechas_validas : List ℕ
deriving DecidableEq, Repr

/-- One iteration of `for i, fecha in enumerate(fechas[:-1])`: rank, skip the
month when fewer than `top_n` tickers are eligible, otherwise rebalance, log
the holding changes, and append one NAV point to each series. -/
def simStep (datos : String → Option (List DBar)) (etfs : List String) (top_n : ℕ)
    (bdf : List DBar) (fechas : List ℕ) (st : SimState) (i : ℕ) : SimState :=
  if (eligiblesAt datos etfs (fechas.getD i 0)).length < top_n then st
  else
    let fecha := fechas.getD i 0
    let fecha_siguiente := fechas.getD (i + 1) 0
    let nuevos_top := nuevosTopAt datos etfs top_n fecha
    let entradas := nuevos_top.filter (fun tk => decide (tk ∉ st.posiciones))
    let salidas := st.posiciones.filter (fun tk => decide (tk ∉ nuevos_top))
    let retornos := retornosMes datos nuevos_top fecha_siguiente
    let ret_port := if retornos = [] then PVal.num 0 else npMean retornos
    let ret_bench :=
      if (benchRetAt bdf fecha_siguiente).isna then PVal.num 0
      else benchRetAt bdf fecha_siguiente
    { portfolio_value := st.portfolio_value ++
        [(st.portfolio_value.getLastD (.num 0)).mul ((PVal.num 1).add ret_port)]
      benchmark_value := st.benchmark_value ++
        [(st.benchmark_value.getLastD (.num 0)).mul ((PVal.num 1).add ret_bench)]
      posiciones := nuevos_top
      trades := st.trades ++
        (if entradas = [] ∧ salidas = [] then []
         else [⟨fecha_siguiente, entradas, salidas, nuevos_top⟩])
      fechas_validas := st.fechas_validas ++ [fecha_siguiente] }

/-- The initial simulation state: both NAV accumulators start at 100.0. -/
def simInit : SimState := ⟨[.num 100], [.num 100], [], [], []⟩

/-- The month labels iterated by the simulator: the benchmark index from
position 14 on (`fechas = benchmark_df.index[14:]`). -/
def fechasOf (bdf : List DBar) : List ℕ := (bdf.drop 14).map (fun b => b.date)

/-- The final state of the simulation loop. -/
def simFold (datos : String → Option (List DBar)) (etfs : List String)
    (top_n : ℕ) (bdf : List DBar) : SimState :=
  let fechas := fechasOf bdf
  (List.range (fechas.length - 1)).foldl (simStep datos etfs top_n bdf fechas) simInit

/-- The outputs of a successful backtest that feed the metrics stage: the
`resultados` dataframe (`Fecha`, `Portfolio`, `Benchmark` columns) and the
trade log.  The scalar metrics derived from these are modelled separately
(see `sharpe`). -/
structure BTResult where
  fechas : List ℕ
  portfolio : List PVal
  benchmark : List PVal
  trades : List Trade
deriving DecidableEq, Repr

/-- `ejecutar_backtest` of the source, from the downloaded data map to the
simulation output: fail when the benchmark is unavailable, run the monthly
loop, fail when no month could be rebalanced, else return the NAV frame
`portfolio_value[1:len(fechas_validas)+1]` (and benchmark alike) indexed by
`fechas_validas`, plus the trade log. -/
def ejecutar_backtest (datos : String → Option (List DBar)) (etfs : List String)
    (benchmark : String) (top_n : ℕ) : Option BTResult :=
  (datos benchmark).bind fun bdf =>
    let fin := simFold datos etfs top_n bdf
    if fin.fechas_validas = [] then none
    else some ⟨fin.fechas_validas,
               (fin.portfolio_value.drop 1).take fin.fechas_validas.length,
               (fin.benchmark_value.drop 1).take fin.fechas_validas.length,
               fin.trades⟩

/-- Removal of one instrument from the downloaded data map (the instrument
failed to download / has no usable data). -/
def removeTicker (x : String) (datos : String → Option (List DBar)) :
    String → Option (List DBar) :=
  fun tk => if tk = x then none else datos tk

/-- pandas `Series.pct_change().dropna()` of a NAV series of finite values
with nonzero entries: the simple percentage change between consecutive
points (the first point has no return). -/
def pctChanges (nav : List ℚ) : List ℚ :=
  List.zipWith (fun a b => (b - a) / a) nav nav.tail

/-- The arithmetic mean of a list of rationals (0 for the empty list,
matching the guarded uses below). -/
def meanQ (l : List ℚ) : ℚ := l.sum / l.length

/-- The sample variance with `ddof = 1` (the pandas `Series.std()` default);
0 when fewer than two observations exist. -/
def varSample (l : List ℚ) : ℚ :=
  (l.map (fun x => (x - meanQ l) * (x - meanQ l))).sum / (l.length - 1 : ℕ)

/-- The Sharpe ratio of `calcular_metricas`:
`(returns.mean() / returns.std()) * np.sqrt(12) if returns.std() > 0 else 0`.
The guard `returns.std() > 0` holds exactly when there are at least two
returns and their sample variance is positive (with fewer than two returns
pandas yields a NaN std, and `NaN > 0` is false). -/
noncomputable def sharpe (nav : List ℚ) : ℝ :=
  let r := pctChanges nav
  if 2 ≤ r.length ∧ 0 < varSample r then
    ((meanQ r : ℝ) / Real.sqrt (varSample r)) * Real.sqrt 12
  else 0

/-- From the claim C1 text: `roc(n,t) = (C[t]-C[t-n])/C[t-n]*100`. -/
def rocQ (df : List DBar) (n t : ℕ) : ℚ :=
  (cQ df t - cQ df (t - n)) / cQ df (t - n) * 100

/-- From the claim C1 text: the true range
`max(H[t]-L[t], |H[t]-C[t-1]|, |L[t]-C[t-1]|)`. -/
def trQ (df : List DBar) (s : ℕ) : ℚ :=
  max (max (hQ df s - lQ df s) |hQ df s - cQ df (s - 1)|) |lQ df s - cQ df (s - 1)|

/-- From the claim C1 text: the simple moving average over window 14 of the
true range, ending at `t`. -/
def atrQ (df : List DBar) (t : ℕ) : ℚ :=
  ((List.range 14).map (fun i => trQ df (t - i))).sum / 14

/-- From the claim C1 text: the simple moving average of closes over window
14, ending at `t`. -/
def smaQ (df : List DBar) (t : ℕ) : ℚ :=
  ((List.range 14).map (fun i => cQ df (t - i))).sum / 14

/-- From the claim C1 text: the raw indicator
`(roc(8,t)*0.4 + roc(10,t)*0.2) / ((atr[t]/sma[t])*0.4)`. -/
def rawQ (df : List DBar) (t : ℕ) : ℚ :=
  (rocQ df 8 t * 0.4 + rocQ df 10 t * 0.2) / ((atrQ df t / smaQ df t) * 0.4)

/-- From the claim C1 text: `score[t] = max(0, raw_indicator[t])`. -/
def specScoreQ (df : List DBar) (t : ℕ) : ℚ := max 0 (rawQ df t)

/-- The true-range value the code actually computes at position `s`: at the
first bar the two cross-bar measures are NaN and the skipna rowwise max
degrades to `H[0]-L[0]`. -/
def codeTrQ (df : List DBar) (s : ℕ) : ℚ :=
  if s = 0 then hQ df 0 - lQ df 0 else trQ df s

/-- The score of one instrument at one date as the backtest reads it: look
the date up in the instrument index and apply `max(0, inercia)`; `none` when
the instrument has no data or the date is absent. -/
def scoreAtDate (datos : String → Option (List DBar)) (tk : String) (fecha : ℕ) :
    Option PVal :=
  (datos tk).bind fun df =>
    (df.findIdx? (fun b => decide (b.date = fecha))).map fun p =>
      pymax0 (calcular_inercia_alcista df p)

/-- Strictly increasing unique dates of a PriceSeries (spec data model). -/
def sortedDates (df : List DBar) : Prop :=
  List.Pairwise (fun a b => a.date < b.date) df

/-- Agreement of two optional price series on all bars dated at or before
`t` (the no-lookahead hypothesis shape). -/
def agreeUpTo (t : ℕ) (o1 o2 : Option (List DBar)) : Prop :=
  Option.map (List.filter (fun b => decide (b.date ≤ t))) o1 =
    Option.map (List.filter (fun b => decide (b.date ≤ t))) o2

/-- Sortedness of an optional price series. -/
def sortedO (o : Option (List DBar)) : Prop := o.elim True sortedDates

/-- The true-range series built inside `calcular_atr` (named here so lemmas
can speak about it; `calcular_atr h l c p = rollingMean p (trueRangeF h l c)`
holds by definition). -/
def trueRangeF (high low close : ℕ → PVal) (t : ℕ) : PVal :=
  nanmax2 (nanmax2 ((high t).sub (low t)) (((high t).sub (shiftP 1 close t)).abs))
    (((low t).sub (shiftP 1 close t)).abs)

/-- Synthetic monthly bars for concrete evaluations: bar `t` has date `t+1`,
close `f t`, high `f t + 2`, low `f t - 2`. -/
def mkBars (f : ℕ → ℚ) (len : ℕ) : List DBar :=
  (List.range len).map (fun t => ⟨t + 1, f t + 2, f t - 2, f t⟩)

/-- 15 rising bars (dates 1..15, closes 100..114). -/
def exRise15 : List DBar := mkBars (fun t => 100 + (t : ℚ)) 15

/-- 14 rising bars (dates 1..14, closes 100..113). -/
def exRise14 : List DBar := mkBars (fun t => 100 + (t : ℚ)) 14

/-- 16 rising bars: `exRise15` plus one later bar (date 16). -/
def exRise16 : List DBar := mkBars (fun t => 100 + (t : ℚ)) 16

/-- 17 rising bars (dates 1..17), an instrument series for backtest runs. -/
def exRise17 : List DBar := mkBars (fun t => 100 + (t : ℚ)) 17

/-- 17 flat bars (dates 1..17), a benchmark series for backtest runs. -/
def exFlat17 : List DBar := mkBars (fun _ => (50 : ℚ)) 17

/-- 15 declining bars, slope -2 (negative momentum). -/
def exFallA : List DBar := mkBars (fun t => 100 - 2 * (t : ℚ)) 15

/-- 15 declining bars, slope -1 (negative momentum, less negative). -/
def exFallB : List DBar := mkBars (fun t => 100 - (t : ℚ)) 15

/-- Data map with one instrument AAA. -/
def datosOne : String → Option (List DBar) :=
  fun tk => if tk = "AAA" then some exRise15 else none

/-- Data map identical to `datosOne` on bars dated at or before 15, with one
extra future bar for AAA. -/
def datosOneLonger : String → Option (List DBar) :=
  fun tk => if tk = "AAA" then some exRise16 else none

/-- Data map for a backtest run: benchmark SPY plus one instrument AAA. -/
def datosRun : String → Option (List DBar) :=
  fun tk => if tk = "SPY" then some exFlat17 else if tk = "AAA" then some exRise17 else none

/-- Data map with two instruments carrying identical series (a score tie). -/
def datosTie : String → Option (List DBar) :=
  fun tk => if tk = "A" then some exRise15 else if tk = "B" then some exRise15 else none

/-- Data map with two declining instruments: A falls faster than B, so both
raw indicators are negative (both scores clamp to 0) and they differ. -/
def datosFall : String → Option (List DBar) :=
  fun tk => if tk = "A" then some exFallA else if tk = "B" then some exFallB else none

/-- The loop invariant of the simulation: each NAV accumulator holds exactly
one more point than the number of months rebalanced so far, and both start
at 100.0. -/
def navInvariant (st : SimState) : Prop :=
  st.portfolio_value.length = 1 + st.fechas_validas.length ∧
  st.benchmark_value.length = 1 + st.fechas_validas.length ∧
  st.portfolio_value.head? = some (.num 100) ∧
  st.benchmark_value.head? = some (.num 100)

/-- The empty data map (every download failed). -/
def datosNone : String → Option (List DBar) := fun _ => none

theorem PVal.add_num (a b : ℚ) : (PVal.num a).add (.num b) = .num (a + b) := rfl

theorem PVal.sub_num (a b : ℚ) : (PVal.num a).sub (.num b) = .num (a - b) := rfl

theorem PVal.mul_num (a b : ℚ) : (PVal.num a).mul (.num b) = .num (a * b) := rfl

theorem PVal.abs_num (a : ℚ) : (PVal.num a).abs = .num |a| := rfl

theorem PVal.isna_num (a : ℚ) : (PVal.num a).isna = false := rfl

theorem PVal.div_num (a b : ℚ) (h : b ≠ 0) :
    (PVal.num a).div (.num b) = .num (a / b) := by
  simp [PVal.div, h]

theorem pymax0_num (q : ℚ) : pymax0 (.num q) = .num (max 0 q) := by
  unfold pymax0 pvLT
  rcases lt_or_le 0 q with h | h
  · simp [h, max_eq_right h.le]
  · simp [not_lt.mpr h, max_eq_left h]

theorem nanmax2_num (a b : ℚ) : nanmax2 (.num a) (.num b) = .num (max a b) := by
  unfold nanmax2 pvLT
  rcases lt_or_le a b with h | h
  · simp [PVal.isna, h, max_eq_right h.le]
  · simp [PVal.isna, not_lt.mpr h, max_eq_left h]

theorem closeF_eq (df : List DBar) (t : ℕ) (ht : t < df.length) :
    closeF df t = .num (cQ df t) := by
  unfold closeF cQ
  rw [List.getElem?_eq_getElem ht, List.getD_eq_getElem?_getD, List.getElem?_eq_getElem ht]
  rfl

theorem highF_eq (df : List DBar) (t : ℕ) (ht : t < df.length) :
    highF df t = .num (hQ df t) := by
  unfold highF hQ
  rw [List.getElem?_eq_getElem ht, List.getD_eq_getElem?_getD, List.getElem?_eq_getElem ht]
  rfl

theorem lowF_eq (df : List DBar) (t : ℕ) (ht : t < df.length) :
    lowF df t = .num (lQ df t) := by
  unfold lowF lQ
  rw [List.getElem?_eq_getElem ht, List.getD_eq_getElem?_getD, List.getElem?_eq_getElem ht]
  rfl

theorem calcular_roc_eval (df : List DBar) (n t : ℕ) (hn : n ≤ t) (ht : t < df.length)
    (h0 : cQ df (t - n) ≠ 0) :
    calcular_roc (closeF df) n t = .num (rocQ df n t) := by
  unfold calcular_roc shiftP rocQ
  rw [if_neg (by omega), closeF_eq df t ht, closeF_eq df (t - n) (by omega),
    PVal.sub_num, PVal.div_num _ _ h0, PVal.mul_num]

theorem trueRangeF_eval (df : List DBar) (s : ℕ) (hs : s < df.length) :
    trueRangeF (highF df) (lowF df) (closeF df) s = .num (codeTrQ df s) := by
  unfold trueRangeF codeTrQ shiftP
  rcases Nat.eq_zero_or_pos s with h0 | h1
  · subst h0
    rw [if_pos (by omega), highF_eq df 0 hs, lowF_eq df 0 hs, PVal.sub_num]
    rfl
  · rw [if_neg (by omega), if_neg (by omega), highF_eq df s hs, lowF_eq df s hs,
      closeF_eq df (s - 1) (by omega), PVal.sub_num, PVal.sub_num, PVal.sub_num,
      PVal.abs_num, PVal.abs_num, nanmax2_num, nanmax2_num, trQ]

theorem foldl_add_map_num {γ : Type} (f : γ → ℚ) (l : List γ) (a : ℚ) :
    ((l.map (fun i => PVal.num (f i))).foldl PVal.add (.num a)) =
      .num (a + (l.map f).sum) := by
  induction l generalizing a with
  | nil => simp
  | cons x xs ih => simp only [List.map_cons, List.foldl_cons, List.sum_cons,
      PVal.add_num, ih, add_assoc]

theorem any_isna_map_num {γ : Type} (f : γ → ℚ) (l : List γ) :
    (l.map (fun i => PVal.num (f i))).any PVal.isna = false := by
  simp [List.any_map, Function.comp_def, PVal.isna_num]

theorem rollingMean_eval (s : ℕ → PVal) (g : ℕ → ℚ) (n t : ℕ) (hn : n ≠ 0)
    (ht : ¬ t + 1 < n) (h : ∀ i < n, s (t - i) = .num (g (t - i))) :
    rollingMean n s t = .num (((List.range n).map (fun i => g (t - i))).sum / n) := by
  unfold rollingMean windowVals
  have hmap : (List.range n).map (fun i => s (t - i)) =
      (List.range n).map (fun i => PVal.num ((fun j => g (t - j)) i)) := by
    refine List.map_congr_left ?_
    intro i hi
    exact h i (List.mem_range.mp hi)
  rw [if_neg ht, hmap, any_isna_map_num, if_neg (by simp), foldl_add_map_num,
    PVal.div_num _ _ (by exact_mod_cast hn), zero_add]

theorem calcular_atr_eq (high low close : ℕ → PVal) (p : ℕ) :
    calcular_atr high low close p = rollingMean p (trueRangeF high low close) := rfl

theorem calcular_atr_eval (df : List DBar) (t : ℕ) (h13 : 13 ≤ t) (ht : t < df.length) :
    calcular_atr (highF df) (lowF df) (closeF df) 14 t =
      .num (((List.range 14).map (fun i => codeTrQ df (t - i))).sum / 14) := by
  rw [calcular_atr_eq]
  exact rollingMean_eval _ (codeTrQ df) 14 t (by omega) (by omega)
    (fun i hi => trueRangeF_eval df (t - i) (by omega))

theorem rollingMean_close_eval (df : List DBar) (t : ℕ) (h13 : 13 ≤ t)
    (ht : t < df.length) : rollingMean 14 (closeF df) t = .num (smaQ df t) := by
  exact rollingMean_eval _ (cQ df) 14 t (by omega) (by omega)
    (fun i hi => closeF_eq df (t - i) (by omega))

theorem inercia_unfold (df : List DBar) (t : ℕ) :
    calcular_inercia_alcista df t =
      (((calcular_roc (closeF df) N t).mul (.num 0.4)).add
        ((calcular_roc (closeF df) M t).mul (.num 0.2))).div
        (((calcular_atr (highF df) (lowF df) (closeF df) 14 t).div
          (rollingMean 14 (closeF df) t)).mul (.num 0.4)) := rfl

/-- C1. For every monthly price series and every date `t` at which all of the
inputs of the claimed formula are defined (the full true-range window exists,
i.e. `14 ≤ t` and `t` is inside the series, and the divisors `C[t-8]`,
`C[t-10]`, `sma[t]` and the volatility ratio `atr[t]/sma[t]` are nonzero),
the indicator engine's score `max(0, inercia[t])` equals
`max(0, (roc(8,t)*0.4 + roc(10,t)*0.2) / ((atr[t]/sma[t])*0.4))` where `atr`
is the simple (not Wilder-smoothed) moving average of the true range over
window 14 and `sma` is the simple moving average of closes over window 14. -/
theorem c1_score_formula (df : List DBar) (t : ℕ) (h14 : 14 ≤ t) (ht : t < df.length)
    (h8 : cQ df (t - 8) ≠ 0) (h10 : cQ df (t - 10) ≠ 0)
    (hsma : smaQ df t ≠ 0) (hvol : atrQ df t / smaQ df t ≠ 0) :
    pymax0 (calcular_inercia_alcista df t) = .num (specScoreQ df t) := by
  have hw : (List.range 14).map (fun i => codeTrQ df (t - i)) =
      (List.range 14).map (fun i => trQ df (t - i)) := by
    refine List.map_congr_left ?_
    intro i hi
    have hi14 := List.mem_range.mp hi
    have hne : t - i ≠ 0 := by omega
    simp [codeTrQ, hne]
  have hatr : calcular_atr (highF df) (lowF df) (closeF df) 14 t = .num (atrQ df t) := by
    rw [calcular_atr_eval df t (by omega) ht, hw]
    rfl
  rw [inercia_unfold]
  simp only [N, M]
  rw [calcular_roc_eval df 8 t (by omega) ht h8,
    calcular_roc_eval df 10 t (by omega) ht h10,
    hatr, rollingMean_close_eval df t (by omega) ht,
    PVal.mul_num, PVal.mul_num, PVal.add_num,
    PVal.div_num _ _ hsma, PVal.mul_num,
    PVal.div_num _ _ (mul_ne_zero hvol (by norm_num)),
    pymax0_num]
  rfl

unseal Rat.add Rat.mul Rat.sub Rat.inv Rat.ofScientific in
/-- Witness for C1 at a concrete 15-bar series, evaluated at `t = 14`. -/
theorem c1_score_formula_witness :
    ((14 : ℕ) ≤ 14 ∧ 14 < exRise15.length ∧ cQ exRise15 (14 - 8) ≠ 0 ∧
      cQ exRise15 (14 - 10) ≠ 0 ∧ smaQ exRise15 14 ≠ 0 ∧
      atrQ exRise15 14 / smaQ exRise15 14 ≠ 0) ∧
    pymax0 (calcular_inercia_alcista exRise15 14) = .num (specScoreQ exRise15 14) :=
  ⟨by refine ⟨by decide, by decide, ?_, ?_, ?_, ?_⟩ <;> decide,
    c1_score_formula exRise15 14 (by decide) (by decide) (by decide)
      (by decide) (by decide)
      (by decide)⟩

theorem PVal.div_nan (v : PVal) : v.div .nan = .nan := by cases v <;> rfl

theorem PVal.nan_mul (v : PVal) : PVal.nan.mul v = .nan := by cases v <;> rfl

theorem rollingMean_nan (n : ℕ) (s : ℕ → PVal) (t : ℕ) (h : t + 1 < n) :
    rollingMean n s t = .nan := by
  unfold rollingMean
  rw [if_pos h]

theorem entryFor_fst (datos : String → Option (List DBar)) (fecha : ℕ) (tk : String)
    (p : String × PVal) (h : entryFor datos fecha tk = some p) : p.1 = tk := by
  simp only [entryFor, Option.bind_eq_some] at h
  obtain ⟨df, hd, q, hi, h⟩ := h
  split at h
  · exact absurd h (by simp)
  split at h
  · cases h
    rfl
  · exact absurd h (by simp)

/-- C4, amended.  The raw indicator at position `t` is NaN (undefined)
whenever `t < 13`, i.e. whenever fewer than `max(ATR_period - 1, N, M) = 13`
prior monthly bars exist — not the 24 that the claim states; with positive
closes and nonempty bar ranges it is a defined finite value at every
in-range `t ≥ 13`; and a NaN indicator value propagates as undefined: the
instrument is excluded from the ranking at that date, never a crash. -/
theorem c4_amended :
    (∀ (df : List DBar) (t : ℕ), t < 13 → calcular_inercia_alcista df t = .nan)
    ∧ (∀ (df : List DBar) (t : ℕ), 13 ≤ t → t < df.length →
        (∀ s, s ≤ t → 0 < cQ df s) → (∀ s, s ≤ t → lQ df s < hQ df s) →
        (calcular_inercia_alcista df t).isna = false)
    ∧ (∀ (datos : String → Option (List DBar)) (etfs : List String) (fecha : ℕ)
        (tk : String) (df : List DBar) (p : ℕ), datos tk = some df →
        df.findIdx? (fun b => decide (b.date = fecha)) = some p →
        (calcular_inercia_alcista df p).isna = true →
        tk ∉ (eligiblesAt datos etfs fecha).map Prod.fst) := by
  refine ⟨?_, ?_, ?_⟩
  · intro df t ht
    rw [inercia_unfold, rollingMean_nan 14 _ t (by omega)]
    rw [calcular_atr_eq, rollingMean_nan 14 _ t (by omega)]
    rw [show (PVal.nan.div .nan) = .nan from rfl, PVal.nan_mul, PVal.div_nan]
  · intro df t h13 ht hpos hrange
    have hatr : calcular_atr (highF df) (lowF df) (closeF df) 14 t =
        .num (((List.range 14).map (fun i => codeTrQ df (t - i))).sum / 14) :=
      calcular_atr_eval df t h13 ht
    have hsum : 0 < ((List.range 14).map (fun i => codeTrQ df (t - i))).sum := by
      refine List.sum_pos _ ?_ (by simp)
      intro a ha
      rcases List.mem_map.mp ha with ⟨i, hi, rfl⟩
      unfold codeTrQ
      by_cases h0 : t - i = 0
      · rw [if_pos h0]
        have := hrange 0 (by omega)
        linarith
      · rw [if_neg h0]
        have hlt := hrange (t - i) (by omega)
        calc (0 : ℚ) < hQ df (t - i) - lQ df (t - i) := by linarith
        _ ≤ _ := le_max_of_le_left (le_max_left _ _)
    have hsma : 0 < smaQ df t := by
      unfold smaQ
      refine div_pos ?_ (by norm_num)
      refine List.sum_pos _ ?_ (by simp)
      intro a ha
      rcases List.mem_map.mp ha with ⟨i, hi, rfl⟩
      exact hpos (t - i) (by omega)
    rw [inercia_unfold]
    simp only [N, M]
    rw [calcular_roc_eval df 8 t (by omega) ht (ne_of_gt (hpos _ (by omega))),
      calcular_roc_eval df 10 t (by omega) ht (ne_of_gt (hpos _ (by omega))),
      hatr, rollingMean_close_eval df t h13 ht,
      PVal.mul_num, PVal.mul_num, PVal.add_num,
      PVal.div_num _ _ (ne_of_gt hsma), PVal.mul_num,
      PVal.div_num _ _ (mul_ne_zero (ne_of_gt (div_pos (by linarith) hsma)) (by norm_num))]
    rfl
  · intro datos etfs fecha tk df p hd hi hna hmem
    rcases List.mem_map.mp hmem with ⟨e, he, hfst⟩
    rcases List.mem_filterMap.mp he with ⟨tk2, _, hent⟩
    have htk : tk2 = tk := by rw [← hfst, entryFor_fst _ _ _ _ hent]
    subst htk
    simp only [entryFor, Option.bind_eq_some] at hent
    obtain ⟨df2, hd2, q2, hi2, hent⟩ := hent
    rw [hd] at hd2
    cases hd2
    rw [hi] at hi2
    cases hi2
    rw [if_pos hna] at hent
    exact absurd hent (by simp)

unseal Rat.add Rat.mul Rat.sub Rat.inv Rat.ofScientific in
/-- Counterexample to C4 as stated: a 14-bar series (only 13 prior monthly
bars at the last position, fewer than the claimed `ATR_period + max(N,M) =
24`) already yields a defined (non-NaN) raw indicator and score at `t = 13`. -/
theorem c4_counterexample :
    (calcular_inercia_alcista exRise14 13).isna = false ∧ exRise14.length = 14 := by
  constructor
  · decide
  · decide

unseal Rat.add Rat.mul Rat.sub Rat.inv Rat.ofScientific in
/-- Witness for the amended C4 at a concrete series and position: the
indicator is defined at position 13 of a 15-bar rising series. -/
theorem c4_amended_witness :
    (calcular_inercia_alcista exRise15 13).isna = false :=
  c4_amended.2.1 exRise15 13 (by decide) (by decide) (by decide) (by decide)

theorem shiftP_congr (s s2 : ℕ → PVal) (n t : ℕ) (h : ∀ j, j ≤ t → s j = s2 j) :
    shiftP n s t = shiftP n s2 t := by
  unfold shiftP
  split
  · rfl
  · exact h _ (by omega)

theorem calcular_roc_congr (s s2 : ℕ → PVal) (n t : ℕ) (h : ∀ j, j ≤ t → s j = s2 j) :
    calcular_roc s n t = calcular_roc s2 n t := by
  unfold calcular_roc
  rw [h t le_rfl, shiftP_congr s s2 n t h]

theorem windowVals_congr (s s2 : ℕ → PVal) (n t : ℕ) (h : ∀ j, j ≤ t → s j = s2 j) :
    windowVals s n t = windowVals s2 n t := by
  unfold windowVals
  exact List.map_congr_left fun i _ => h _ (Nat.sub_le t i)

theorem rollingMean_congr (n : ℕ) (s s2 : ℕ → PVal) (t : ℕ)
    (h : ∀ j, j ≤ t → s j = s2 j) : rollingMean n s t = rollingMean n s2 t := by
  unfold rollingMean
  rw [windowVals_congr s s2 n t h]

theorem trueRangeF_congr (hi lo cl hi2 lo2 cl2 : ℕ → PVal) (t j : ℕ) (hj : j ≤ t)
    (hh : ∀ k, k ≤ t → hi k = hi2 k) (hl : ∀ k, k ≤ t → lo k = lo2 k)
    (hc : ∀ k, k ≤ t → cl k = cl2 k) :
    trueRangeF hi lo cl j = trueRangeF hi2 lo2 cl2 j := by
  unfold trueRangeF
  rw [hh j hj, hl j hj,
    shiftP_congr cl cl2 1 j (fun k hk => hc k (hk.trans hj))]

theorem inercia_congr (df df2 : List DBar) (t : ℕ)
    (h : ∀ j, j ≤ t → df[j]? = df2[j]?) :
    calcular_inercia_alcista df t = calcular_inercia_alcista df2 t := by
  have hc : ∀ j, j ≤ t → closeF df j = closeF df2 j := by
    intro j hj; unfold closeF; rw [h j hj]
  have hh : ∀ j, j ≤ t → highF df j = highF df2 j := by
    intro j hj; unfold highF; rw [h j hj]
  have hl : ∀ j, j ≤ t → lowF df j = lowF df2 j := by
    intro j hj; unfold lowF; rw [h j hj]
  rw [inercia_unfold, inercia_unfold, calcular_atr_eq, calcular_atr_eq,
    calcular_roc_congr _ _ N t hc, calcular_roc_congr _ _ M t hc,
    rollingMean_congr 14 _ _ t hc,
    rollingMean_congr 14 (trueRangeF (highF df) (lowF df) (closeF df))
      (trueRangeF (highF df2) (lowF df2) (closeF df2)) t
      (fun j hj => trueRangeF_congr _ _ _ _ _ _ t j hj hh hl hc)]

theorem filter_eq_takeWhile_of_sorted (df : List DBar) (hs : sortedDates df) (t : ℕ) :
    df.filter (fun b => decide (b.date ≤ t)) =
      df.takeWhile (fun b => decide (b.date ≤ t)) := by
  induction df with
  | nil => rfl
  | cons b rest ih =>
    unfold sortedDates at hs
    rw [List.pairwise_cons] at hs
    by_cases hb : b.date ≤ t
    · simp [List.filter_cons, List.takeWhile_cons, hb, ih hs.2]
    · have hbf : (decide (b.date ≤ t)) = false := by simpa using hb
      simp only [List.filter_cons, List.takeWhile_cons, hbf,
        Bool.false_eq_true, if_false, cond_false]
      rw [List.filter_eq_nil_iff]
      intro a ha
      have := hs.1 a ha
      simp only [decide_eq_true_eq]
      omega

theorem dropWhile_dates_gt (df : List DBar) (hs : sortedDates df) (t : ℕ) :
    ∀ b ∈ df.dropWhile (fun b => decide (b.date ≤ t)), t < b.date := by
  induction df with
  | nil => simp
  | cons b rest ih =>
    unfold sortedDates at hs
    rw [List.pairwise_cons] at hs
    by_cases hb : b.date ≤ t
    · rw [List.dropWhile_cons, if_pos (by simpa using hb)]
      exact ih hs.2
    · rw [List.dropWhile_cons, if_neg (by simpa using hb)]
      intro a ha
      rcases List.mem_cons.mp ha with rfl | ha2
      · omega
      · have := hs.1 a ha2
        omega

theorem findIdx_date_localized (df : List DBar) (hs : sortedDates df) (t : ℕ) :
    df.findIdx? (fun b => decide (b.date = t)) =
      (df.takeWhile (fun b => decide (b.date ≤ t))).findIdx?
        (fun b => decide (b.date = t)) := by
  conv_lhs => rw [← List.takeWhile_append_dropWhile
    (p := fun b => decide (b.date ≤ t)) (l := df)]
  rw [List.findIdx?_append]
  have hnone : (df.dropWhile (fun b => decide (b.date ≤ t))).findIdx?
      (fun b => decide (b.date = t)) = none := by
    rw [List.findIdx?_eq_none_iff]
    intro b hb
    have := dropWhile_dates_gt df hs t b hb
    simp only [decide_eq_false_iff_not]
    omega
  rw [hnone]
  simp

theorem prefix_getElem_eq (s1 s2 : List DBar) (t : ℕ) (h1 : sortedDates s1)
    (h2 : sortedDates s2)
    (hf : s1.filter (fun b => decide (b.date ≤ t)) =
      s2.filter (fun b => decide (b.date ≤ t)))
    (j : ℕ) (hj : j < (s1.takeWhile (fun b => decide (b.date ≤ t))).length) :
    s1[j]? = s2[j]? := by
  have e1 := filter_eq_takeWhile_of_sorted s1 h1 t
  have e2 := filter_eq_takeWhile_of_sorted s2 h2 t
  have hW : s1.takeWhile (fun b => decide (b.date ≤ t)) =
      s2.takeWhile (fun b => decide (b.date ≤ t)) := by rw [← e1, hf, e2]
  have d1 : s1 = s1.takeWhile (fun b => decide (b.date ≤ t)) ++
      s1.dropWhile (fun b => decide (b.date ≤ t)) :=
    (List.takeWhile_append_dropWhile (fun b => decide (b.date ≤ t)) s1).symm
  have d2 : s2 = s2.takeWhile (fun b => decide (b.date ≤ t)) ++
      s2.dropWhile (fun b => decide (b.date ≤ t)) :=
    (List.takeWhile_append_dropWhile (fun b => decide (b.date ≤ t)) s2).symm
  conv_lhs => rw [d1]
  conv_rhs => rw [d2]
  rw [List.getElem?_append, List.getElem?_append, if_pos hj, if_pos (hW ▸ hj), hW]

theorem entry_invariant (s1 s2 : List DBar) (t : ℕ) (h1 : sortedDates s1)
    (h2 : sortedDates s2)
    (hf : s1.filter (fun b => decide (b.date ≤ t)) =
      s2.filter (fun b => decide (b.date ≤ t))) :
    s1.findIdx? (fun b => decide (b.date = t)) =
      s2.findIdx? (fun b => decide (b.date = t)) ∧
    ∀ p, s1.findIdx? (fun b => decide (b.date = t)) = some p →
      calcular_inercia_alcista s1 p = calcular_inercia_alcista s2 p := by
  have e1 := filter_eq_takeWhile_of_sorted s1 h1 t
  have e2 := filter_eq_takeWhile_of_sorted s2 h2 t
  have hW : s1.takeWhile (fun b => decide (b.date ≤ t)) =
      s2.takeWhile (fun b => decide (b.date ≤ t)) := by rw [← e1, hf, e2]
  constructor
  · rw [findIdx_date_localized s1 h1 t, findIdx_date_localized s2 h2 t, hW]
  · intro p hp
    rw [findIdx_date_localized s1 h1 t] at hp
    have hlen : p < (s1.takeWhile (fun b => decide (b.date ≤ t))).length := by
      rcases List.findIdx?_eq_some_iff_getElem.mp hp with ⟨hlt, _⟩
      exact hlt
    exact inercia_congr s1 s2 p fun j hj =>
      prefix_getElem_eq s1 s2 t h1 h2 hf j (lt_of_le_of_lt hj hlen)

theorem entryFor_invariant (datos1 datos2 : String → Option (List DBar)) (t : ℕ)
    (tk : String) (hag : agreeUpTo t (datos1 tk) (datos2 tk))
    (hso1 : sortedO (datos1 tk)) (hso2 : sortedO (datos2 tk)) :
    entryFor datos1 t tk = entryFor datos2 t tk := by
  unfold agreeUpTo at hag
  rcases hd1 : datos1 tk with _ | s1
  · rw [hd1] at hag
    rcases hd2 : datos2 tk with _ | s2
    · unfold entryFor
      rw [hd1, hd2]
    · rw [hd2] at hag
      simp at hag
  · rw [hd1] at hag
    rcases hd2 : datos2 tk with _ | s2
    · rw [hd2] at hag
      simp at hag
    · rw [hd2] at hag
      simp only [Option.map_some'] at hag
      have hfe : s1.filter (fun b => decide (b.date ≤ t)) =
          s2.filter (fun b => decide (b.date ≤ t)) := by
        exact Option.some.inj hag
      have hs1 : sortedDates s1 := by rw [hd1] at hso1; exact hso1
      have hs2 : sortedDates s2 := by rw [hd2] at hso2; exact hso2
      obtain ⟨hidx, hval⟩ := entry_invariant s1 s2 t hs1 hs2 hfe
      unfold entryFor
      rw [hd1, hd2]
      simp only [Option.some_bind]
      rw [hidx]
      rcases hi : s2.findIdx? (fun b => decide (b.date = t)) with _ | p
      · rw [hi]
        rfl
      · rw [hi]
        simp only [Option.some_bind]
        rw [hval p (by rw [hidx, hi])]

theorem scoreAtDate_invariant (datos1 datos2 : String → Option (List DBar)) (t : ℕ)
    (tk : String) (hag : agreeUpTo t (datos1 tk) (datos2 tk))
    (hso1 : sortedO (datos1 tk)) (hso2 : sortedO (datos2 tk)) :
    scoreAtDate datos1 tk t = scoreAtDate datos2 tk t := by
  unfold agreeUpTo at hag
  rcases hd1 : datos1 tk with _ | s1
  · rw [hd1] at hag
    rcases hd2 : datos2 tk with _ | s2
    · unfold scoreAtDate
      rw [hd1, hd2]
    · rw [hd2] at hag
      simp at hag
  · rw [hd1] at hag
    rcases hd2 : datos2 tk with _ | s2
    · rw [hd2] at hag
      simp at hag
    · rw [hd2] at hag
      simp only [Option.map_some'] at hag
      have hfe : s1.filter (fun b => decide (b.date ≤ t)) =
          s2.filter (fun b => decide (b.date ≤ t)) := Option.some.inj hag
      have hs1 : sortedDates s1 := by rw [hd1] at hso1; exact hso1
      have hs2 : sortedDates s2 := by rw [hd2] at hso2; exact hso2
      obtain ⟨hidx, hval⟩ := entry_invariant s1 s2 t hs1 hs2 hfe
      unfold scoreAtDate
      rw [hd1, hd2]
      simp only [Option.some_bind]
      rw [hidx]
      rcases hi : s2.findIdx? (fun b => decide (b.date = t)) with _ | p
      · rw [hi]
        rfl
      · rw [hi]
        simp only [Option.map_some']
        rw [hval p (by rw [hidx, hi])]

/-- C2. No-lookahead: for every instrument and date `t`, two downloaded data
maps whose series agree on all bars dated at or before `t` (and may differ
arbitrarily on bars dated strictly after `t`, both with strictly increasing
dates) produce the same score at `t` for every instrument, the same eligible
list at `t`, and the same sorted ranking at `t`. -/
theorem c2_no_lookahead (datos1 datos2 : String → Option (List DBar))
    (etfs : List String) (t : ℕ)
    (hagree : ∀ tk ∈ etfs, agreeUpTo t (datos1 tk) (datos2 tk))
    (hso1 : ∀ tk ∈ etfs, sortedO (datos1 tk))
    (hso2 : ∀ tk ∈ etfs, sortedO (datos2 tk)) :
    (∀ tk ∈ etfs, scoreAtDate datos1 tk t = scoreAtDate datos2 tk t) ∧
    eligiblesAt datos1 etfs t = eligiblesAt datos2 etfs t ∧
    sortDesc Prod.snd (eligiblesAt datos1 etfs t) =
      sortDesc Prod.snd (eligiblesAt datos2 etfs t) := by
  have helig : eligiblesAt datos1 etfs t = eligiblesAt datos2 etfs t := by
    unfold eligiblesAt
    induction etfs with
    | nil => rfl
    | cons tk rest ih =>
      rw [List.filterMap_cons, List.filterMap_cons,
        entryFor_invariant datos1 datos2 t tk (hagree tk (by simp))
          (hso1 tk (by simp)) (hso2 tk (by simp)),
        ih (fun tk2 h2 => hagree tk2 (by simp [h2]))
          (fun tk2 h2 => hso1 tk2 (by simp [h2])) (fun tk2 h2 => hso2 tk2 (by simp [h2]))]
  exact ⟨fun tk htk => scoreAtDate_invariant datos1 datos2 t tk (hagree tk htk)
      (hso1 tk htk) (hso2 tk htk),
    helig, by rw [helig]⟩

unseal Rat.add Rat.mul Rat.sub Rat.inv Rat.ofScientific in
/-- Witness for C2: a 15-bar series and the same series extended by one bar
dated after `t = 15` give identical scores and rankings at `t`. -/
theorem c2_no_lookahead_witness :
    scoreAtDate datosOne "AAA" 15 = scoreAtDate datosOneLonger "AAA" 15 ∧
    eligiblesAt datosOne ["AAA"] 15 = eligiblesAt datosOneLonger ["AAA"] 15 ∧
    sortDesc Prod.snd (eligiblesAt datosOne ["AAA"] 15) =
      sortDesc Prod.snd (eligiblesAt datosOneLonger ["AAA"] 15) := by
  have hag : ∀ tk ∈ ["AAA"], agreeUpTo 15 (datosOne tk) (datosOneLonger tk) := by
    intro tk htk
    rw [List.mem_singleton] at htk
    subst htk
    have h : (some (exRise15.filter (fun b => decide (b.date ≤ 15))) :
        Option (List DBar)) = some (exRise16.filter (fun b => decide (b.date ≤ 15))) := by
      decide
    exact h
  have hs1 : ∀ tk ∈ ["AAA"], sortedO (datosOne tk) := by
    intro tk htk
    rw [List.mem_singleton] at htk
    subst htk
    have h : sortedDates exRise15 := by unfold sortedDates; decide
    exact h
  have hs2 : ∀ tk ∈ ["AAA"], sortedO (datosOneLonger tk) := by
    intro tk htk
    rw [List.mem_singleton] at htk
    subst htk
    have h : sortedDates exRise16 := by unfold sortedDates; decide
    exact h
  have h := c2_no_lookahead datosOne datosOneLonger ["AAA"] 15 hag hs1 hs2
  exact ⟨h.1 "AAA" (by simp), h.2.1, h.2.2⟩

theorem pvLT_irrefl (v : PVal) : pvLT v v = false := by
  cases v <;> simp [pvLT]

theorem pvLT_asymm (a b : PVal) (h : pvLT a b = true) : pvLT b a = false := by
  cases a <;> cases b <;> simp_all [pvLT] <;> linarith

theorem pvLT_trans_neg (a b c : PVal) (ha : a.isna = false) (hb : b.isna = false)
    (hc : c.isna = false) (h1 : pvLT a b = false) (h2 : pvLT b c = false) :
    pvLT a c = false := by
  cases a <;> cases b <;> cases c <;> simp_all [pvLT, PVal.isna] <;> linarith

theorem mem_insertDesc {α : Type} (key : α → PVal) (x a : α) (l : List α) :
    a ∈ insertDesc key x l ↔ a = x ∨ a ∈ l := by
  induction l with
  | nil => simp [insertDesc]
  | cons y ys ih =>
    unfold insertDesc
    split
    · rw [List.mem_cons, ih, List.mem_cons]
      tauto
    · simp

theorem insertDesc_self_sublist {α : Type} (key : α → PVal) (x : α) (l : List α) :
    l.Sublist (insertDesc key x l) := by
  induction l with
  | nil => simp [insertDesc]
  | cons y ys ih =>
    unfold insertDesc
    split
    · exact List.Sublist.cons₂ y ih
    · exact List.sublist_cons_self x (y :: ys)

theorem insertDesc_pair {α : Type} (key : α → PVal) (x b : α) (l : List α)
    (hb : b ∈ l) (hxb : pvLT (key x) (key b) = false) :
    List.Sublist [x, b] (insertDesc key x l) := by
  induction l with
  | nil => simp at hb
  | cons y ys ih =>
    unfold insertDesc
    split
    · rcases List.mem_cons.mp hb with rfl | hb2
      · simp_all
      · exact List.Sublist.cons y (ih hb2)
    · exact List.Sublist.cons₂ x (List.singleton_sublist.mpr hb)

theorem mem_sortDesc {α : Type} (key : α → PVal) (a : α) (l : List α) :
    a ∈ sortDesc key l ↔ a ∈ l := by
  induction l with
  | nil => simp [sortDesc]
  | cons y ys ih =>
    unfold sortDesc
    rw [mem_insertDesc, ih]
    simp

theorem sortDesc_stable {α : Type} (key : α → PVal) (a b : α) (l : List α)
    (h : List.Sublist [a, b] l) (hk : pvLT (key a) (key b) = false) :
    List.Sublist [a, b] (sortDesc key l) := by
  induction l with
  | nil => simp at h
  | cons x xs ih =>
    unfold sortDesc
    cases h with
    | cons _ h2 =>
        exact (ih h2).trans (insertDesc_self_sublist key x (sortDesc key xs))
    | cons₂ _ h2 =>
        exact insertDesc_pair key a b (sortDesc key xs)
          ((mem_sortDesc key b xs).mpr (List.singleton_sublist.mp h2)) hk

theorem insertDesc_pairwise {α : Type} (key : α → PVal) (x : α) (l : List α)
    (hx : (key x).isna = false) (hl : ∀ a ∈ l, (key a).isna = false)
    (h : List.Pairwise (fun p q => pvLT (key p) (key q) = false) l) :
    List.Pairwise (fun p q => pvLT (key p) (key q) = false) (insertDesc key x l) := by
  induction l with
  | nil => simp [insertDesc]
  | cons y ys ih =>
    rw [List.pairwise_cons] at h
    unfold insertDesc
    split
    · rename_i ht
      rw [List.pairwise_cons]
      constructor
      · intro z hz
        rcases (mem_insertDesc key x z ys).mp hz with rfl | hz2
        · exact pvLT_asymm _ _ ht
        · exact h.1 z hz2
      · exact ih (fun a ha => hl a (by simp [ha])) h.2
    · rename_i hf
      rw [Bool.not_eq_true] at hf
      rw [List.pairwise_cons]
      constructor
      · intro z hz
        rcases List.mem_cons.mp hz with rfl | hz2
        · exact hf
        · exact pvLT_trans_neg _ _ _ hx (hl y (by simp)) (hl z (by simp [hz2]))
            hf (h.1 z hz2)
      · rw [List.pairwise_cons]
        exact ⟨h.1, h.2⟩

theorem sortDesc_pairwise {α : Type} (key : α → PVal) (l : List α)
    (hl : ∀ a ∈ l, (key a).isna = false) :
    List.Pairwise (fun p q => pvLT (key p) (key q) = false) (sortDesc key l) := by
  induction l with
  | nil => simp [sortDesc]
  | cons y ys ih =>
    unfold sortDesc
    exact insertDesc_pairwise key y (sortDesc key ys) (hl y (by simp))
      (fun a ha => hl a (by simp [(mem_sortDesc key a ys).mp ha]))
      (ih (fun a ha => hl a (by simp [ha])))

theorem filterMap_sublist_cons {α β : Type} (f : α → Option β) (x : α) (xs : List α) :
    (xs.filterMap f).Sublist ((x :: xs).filterMap f) := by
  rw [List.filterMap_cons]
  rcases f x with _ | e
  · exact List.Sublist.refl _
  · exact List.sublist_cons_self e (xs.filterMap f)

theorem filterMap_pair_sublist {α β : Type} (f : α → Option β) (A B : α)
    (l : List α) (ea eb : β) (h : List.Sublist [A, B] l)
    (hfa : f A = some ea) (hfb : f B = some eb) :
    List.Sublist [ea, eb] (l.filterMap f) := by
  induction l with
  | nil => simp at h
  | cons x xs ih =>
    cases h with
    | cons _ h2 => exact (ih h2).trans (filterMap_sublist_cons f x xs)
    | cons₂ _ h2 =>
        rw [List.filterMap_cons, hfa]
        refine List.Sublist.cons₂ ea (List.singleton_sublist.mpr ?_)
        exact List.mem_filterMap.mpr ⟨B, List.singleton_sublist.mp h2, hfb⟩

theorem pymax0_notna (v : PVal) : (pymax0 v).isna = false := by
  unfold pymax0
  split
  · cases v <;> simp_all [pvLT, PVal.isna]
  · rfl

theorem eligiblesAt_notna (datos : String → Option (List DBar)) (etfs : List String)
    (fecha : ℕ) : ∀ e ∈ eligiblesAt datos etfs fecha, e.2.isna = false := by
  intro e he
  rcases List.mem_filterMap.mp he with ⟨tk, _, hent⟩
  simp only [entryFor, Option.bind_eq_some] at hent
  obtain ⟨df, _, p, _, hent⟩ := hent
  split at hent
  · exact absurd hent (by simp)
  split at hent
  · cases hent
    exact pymax0_notna _
  · exact absurd hent (by simp)

theorem round2P_notna (v : PVal) (h : v.isna = false) : (round2P v).isna = false := by
  cases v <;> simp_all [round2P, PVal.isna]

theorem liveRowFor_notna (datos : String → Option (List DBar)) (tk : String)
    (r : LiveRow) (h : liveRowFor datos tk = some r) : r.inercia.isna = false := by
  simp only [liveRowFor, Option.bind_eq_some] at h
  obtain ⟨df, _, h⟩ := h
  split at h
  · exact absurd h (by simp)
  split at h
  · exact absurd h (by simp)
  · rename_i hna
    cases h
    exact round2P_notna _ (by simpa using hna)

/-- C5, amended.  In every backtest ranking the instruments are ordered by
score descending and instruments with numerically identical scores keep the
configured universe order (Python sorts are stable).  The live ranking is
ordered by the rounded raw indicator descending, with ties in that sort key
kept in universe order; since the live sort key is the raw indicator rather
than the score, two instruments with distinct negative raw indicators share
the score 0 yet are ordered by raw indicator (see the counterexample). -/
theorem c5_amended :
    (∀ (datos : String → Option (List DBar)) (etfs : List String) (fecha : ℕ)
      (A B : String) (pA pB : String × PVal),
      List.Sublist [A, B] etfs →
      entryFor datos fecha A = some pA → entryFor datos fecha B = some pB →
      pA.2 = pB.2 →
      List.Sublist [pA, pB] (sortDesc Prod.snd (eligiblesAt datos etfs fecha)))
    ∧ (∀ (datos : String → Option (List DBar)) (etfs : List String) (fecha : ℕ),
      List.Pairwise (fun p q => pvLT p.2 q.2 = false)
        (sortDesc Prod.snd (eligiblesAt datos etfs fecha)))
    ∧ (∀ (datos : String → Option (List DBar)) (etfs : List String)
      (A B : String) (rA rB : LiveRow),
      List.Sublist [A, B] etfs →
      liveRowFor datos A = some rA → liveRowFor datos B = some rB →
      rA.inercia = rB.inercia →
      List.Sublist [rA, rB] (calcular_inercia_mensual datos etfs))
    ∧ (∀ (datos : String → Option (List DBar)) (etfs : List String),
      List.Pairwise (fun p q : LiveRow => pvLT p.inercia q.inercia = false)
        (calcular_inercia_mensual datos etfs)) := by
  refine ⟨?_, ?_, ?_, ?_⟩
  · intro datos etfs fecha A B pA pB hsub hA hB heq
    refine sortDesc_stable Prod.snd pA pB _ ?_ (by rw [heq]; exact pvLT_irrefl _)
    exact filterMap_pair_sublist (entryFor datos fecha) A B etfs pA pB hsub hA hB
  · intro datos etfs fecha
    exact sortDesc_pairwise Prod.snd _ (eligiblesAt_notna datos etfs fecha)
  · intro datos etfs A B rA rB hsub hA hB heq
    refine sortDesc_stable (fun r : LiveRow => r.inercia) rA rB _ ?_
      (by show pvLT rA.inercia rB.inercia = false; rw [heq]; exact pvLT_irrefl _)
    exact filterMap_pair_sublist (liveRowFor datos) A B etfs rA rB hsub hA hB
  · intro datos etfs
    refine sortDesc_pairwise (fun r : LiveRow => r.inercia) _ ?_
    intro r hr
    rcases List.mem_filterMap.mp hr with ⟨tk, _, h⟩
    exact liveRowFor_notna datos tk r h

unseal Rat.add Rat.mul Rat.sub Rat.inv Rat.ofScientific in
/-- Counterexample to C5 as stated: with two declining instruments, A first
in the universe with raw indicator about -617, B second with raw indicator
about -317, both scores are exactly 0 (numerically identical), yet the live
ranking orders B ahead of A (it sorts by raw indicator, not score), so the
claimed universe-order tie-break is violated. -/
theorem c5_counterexample :
    (calcular_inercia_mensual datosFall ["A", "B"]).map (fun r => r.ticker) =
      ["B", "A"] ∧
    (calcular_inercia_mensual datosFall ["A", "B"]).map (fun r => r.score) =
      [.num 0, .num 0] := by
  constructor
  · decide
  · decide

unseal Rat.add Rat.mul Rat.sub Rat.inv Rat.ofScientific in
/-- Witness for the amended C5: two instruments with identical series tie on
the score and appear in universe order in the sorted backtest ranking. -/
theorem c5_amended_witness :
    (List.Sublist ["A", "B"] ["A", "B"] ∧
      entryFor datosTie 15 "A" = some ("A", .num (3660375 / 11024)) ∧
      entryFor datosTie 15 "B" = some ("B", .num (3660375 / 11024)) ∧
      (("A", (.num (3660375 / 11024) : PVal)).2 =
        ("B", (.num (3660375 / 11024) : PVal)).2)) ∧
    List.Sublist [("A", .num (3660375 / 11024)), ("B", .num (3660375 / 11024))]
      (sortDesc Prod.snd (eligiblesAt datosTie ["A", "B"] 15)) :=
  ⟨⟨by decide, by decide, by decide, rfl⟩,
    c5_amended.1 datosTie ["A", "B"] 15 "A" "B" _ _ (by decide)
      (by decide) (by decide) rfl⟩

theorem foldl_inv {σ α : Type} (f : σ → α → σ) (P : σ → Prop)
    (hf : ∀ s a, P s → P (f s a)) : ∀ (l : List α) (s : σ), P s → P (l.foldl f s) := by
  intro l
  induction l with
  | nil => intro s hs; exact hs
  | cons x xs ih => intro s hs; exact ih _ (hf s x hs)

theorem head_append_of_some {α : Type} (l1 l2 : List α) (a : α)
    (h : l1.head? = some a) : (l1 ++ l2).head? = some a := by
  cases l1 with
  | nil => simp at h
  | cons x xs => simpa using h

theorem simStep_navInvariant (datos : String → Option (List DBar)) (etfs : List String)
    (top_n : ℕ) (bdf : List DBar) (fechas : List ℕ) (st : SimState) (i : ℕ)
    (h : navInvariant st) : navInvariant (simStep datos etfs top_n bdf fechas st i) := by
  obtain ⟨h1, h2, h3, h4⟩ := h
  unfold simStep
  split
  · exact ⟨h1, h2, h3, h4⟩
  · unfold navInvariant
    refine ⟨?_, ?_, ?_, ?_⟩
    · simp only [List.length_append, List.length_cons, List.length_nil]
      omega
    · simp only [List.length_append, List.length_cons, List.length_nil]
      omega
    · exact head_append_of_some _ _ _ h3
    · exact head_append_of_some _ _ _ h4

theorem simInit_navInvariant : navInvariant simInit := by
  unfold navInvariant simInit
  refine ⟨rfl, rfl, rfl, rfl⟩

theorem simFold_navInvariant (datos : String → Option (List DBar)) (etfs : List String)
    (top_n : ℕ) (bdf : List DBar) : navInvariant (simFold datos etfs top_n bdf) :=
  foldl_inv _ navInvariant
    (fun s a hs => simStep_navInvariant datos etfs top_n bdf (fechasOf bdf) s a hs)
    _ simInit simInit_navInvariant

/-- C10. Throughout the simulation loop, after processing any number of
months the portfolio value list and the benchmark value list have equal
length, equal to one plus the number of months rebalanced so far, so every
portfolio NAV point has a benchmark NAV point for the same date. -/
theorem c10_nav_lengths (datos : String → Option (List DBar)) (etfs : List String)
    (top_n : ℕ) (bdf : List DBar) (fechas : List ℕ) (k : ℕ) :
    (((List.range (fechas.length - 1)).take k).foldl
        (simStep datos etfs top_n bdf fechas) simInit).portfolio_value.length =
      (((List.range (fechas.length - 1)).take k).foldl
        (simStep datos etfs top_n bdf fechas) simInit).benchmark_value.length ∧
    (((List.range (fechas.length - 1)).take k).foldl
        (simStep datos etfs top_n bdf fechas) simInit).portfolio_value.length =
      1 + (((List.range (fechas.length - 1)).take k).foldl
        (simStep datos etfs top_n bdf fechas) simInit).fechas_validas.length := by
  have h := foldl_inv _ navInvariant
    (fun s a hs => simStep_navInvariant datos etfs top_n bdf fechas s a hs)
    ((List.range (fechas.length - 1)).take k) simInit simInit_navInvariant
  obtain ⟨h1, h2, _, _⟩ := h
  exact ⟨by omega, h1⟩

/-- C3, amended.  For every backtest run that succeeds, the internal NAV
accumulators contain exactly `1 + number_of_successfully_rebalanced_months`
points and both start at the value 100.0; the returned NAV frame, however,
drops the initial 100.0 point: it contains exactly one point per
successfully rebalanced month (skipped months add none), for both the
portfolio and the benchmark series. -/
theorem c3_amended (datos : String → Option (List DBar)) (etfs : List String)
    (benchmark : String) (top_n : ℕ) (bdf : List DBar) (r : BTResult)
    (hb : datos benchmark = some bdf)
    (h : ejecutar_backtest datos etfs benchmark top_n = some r) :
    r.fechas = (simFold datos etfs top_n bdf).fechas_validas ∧
    (simFold datos etfs top_n bdf).portfolio_value.length = 1 + r.fechas.length ∧
    (simFold datos etfs top_n bdf).benchmark_value.length = 1 + r.fechas.length ∧
    (simFold datos etfs top_n bdf).portfolio_value.head? = some (.num 100) ∧
    (simFold datos etfs top_n bdf).benchmark_value.head? = some (.num 100) ∧
    r.portfolio.length = r.fechas.length ∧
    r.benchmark.length = r.fechas.length := by
  obtain ⟨h1, h2, h3, h4⟩ := simFold_navInvariant datos etfs top_n bdf
  simp only [ejecutar_backtest, hb, Option.some_bind] at h
  split at h
  · exact absurd h (by simp)
  · cases h
    refine ⟨rfl, h1, h2, h3, h4, ?_, ?_⟩
    · simp only [List.length_take, List.length_drop]
      omega
    · simp only [List.length_take, List.length_drop]
      omega

unseal Rat.add Rat.mul Rat.sub Rat.inv Rat.ofScientific in
/-- Counterexample to C3 as stated: a concrete successful run with two
rebalanced months returns a NAV series with 2 points, not 1 + 2 = 3, and its
first returned portfolio value is not 100.0 (the initial 100.0 point is
dropped from the returned frame). -/
theorem c3_counterexample :
    (ejecutar_backtest datosRun ["AAA"] "SPY" 1).map
      (fun r => (decide (r.portfolio.length = 1 + r.fechas.length),
        decide (r.portfolio.head? = some (PVal.num 100)))) = some (false, false) := by
  decide

unseal Rat.add Rat.mul Rat.sub Rat.inv Rat.ofScientific in
/-- Witness for the amended C3 at a concrete two-month run. -/
theorem c3_amended_witness :
    ejecutar_backtest datosRun ["AAA"] "SPY" 1 =
      some ⟨[16, 17], [.num (5750 / 57), .num (5800 / 57)], [.num 100, .num 100],
        [⟨16, ["AAA"], [], ["AAA"]⟩]⟩ ∧
    (simFold datosRun ["AAA"] 1 exFlat17).portfolio_value.length = 1 + 2 ∧
    (simFold datosRun ["AAA"] 1 exFlat17).portfolio_value.head? = some (.num 100) := by
  have hr : ejecutar_backtest datosRun ["AAA"] "SPY" 1 =
      some ⟨[16, 17], [.num (5750 / 57), .num (5800 / 57)], [.num 100, .num 100],
        [⟨16, ["AAA"], [], ["AAA"]⟩]⟩ := by decide
  have hc := c3_amended datosRun ["AAA"] "SPY" 1 exFlat17
    ⟨[16, 17], [.num (5750 / 57), .num (5800 / 57)], [.num 100, .num 100],
      [⟨16, ["AAA"], [], ["AAA"]⟩]⟩ (by decide) hr
  exact ⟨hr, by rw [hc.2.1]; decide, hc.2.2.2.1⟩

theorem foldl_add_nums (l : List ℚ) (a : ℚ) :
    ((l.map PVal.num).foldl PVal.add (.num a)) = .num (a + l.sum) := by
  have h := foldl_add_map_num (fun q => q) l a
  simpa using h

/-- C9. For every month in which fewer than `top_n` instruments are eligible,
the simulation step leaves the state exactly unchanged: holdings, trade log,
both NAV lists and the valid-month list are all retained; and in a
successful month the step computes its holdings from the ranking and its
entries and exits against the holdings retained in the incoming state (the
holdings from before any skipped months). -/
theorem c9_skip_frame (datos : String → Option (List DBar)) (etfs : List String)
    (top_n : ℕ) (bdf : List DBar) (fechas : List ℕ) (st : SimState) (i : ℕ) :
    ((eligiblesAt datos etfs (fechas.getD i 0)).length < top_n →
      simStep datos etfs top_n bdf fechas st i = st)
    ∧ (¬ (eligiblesAt datos etfs (fechas.getD i 0)).length < top_n →
      (simStep datos etfs top_n bdf fechas st i).posiciones =
        nuevosTopAt datos etfs top_n (fechas.getD i 0) ∧
      (simStep datos etfs top_n bdf fechas st i).trades = st.trades ++
        (if (nuevosTopAt datos etfs top_n (fechas.getD i 0)).filter
              (fun tk => decide (tk ∉ st.posiciones)) = [] ∧
            st.posiciones.filter (fun tk =>
              decide (tk ∉ nuevosTopAt datos etfs top_n (fechas.getD i 0))) = []
          then []
          else [⟨fechas.getD (i + 1) 0,
            (nuevosTopAt datos etfs top_n (fechas.getD i 0)).filter
              (fun tk => decide (tk ∉ st.posiciones)),
            st.posiciones.filter (fun tk =>
              decide (tk ∉ nuevosTopAt datos etfs top_n (fechas.getD i 0))),
            nuevosTopAt datos etfs top_n (fechas.getD i 0)⟩])) := by
  constructor
  · intro h
    unfold simStep
    rw [if_pos h]
  · intro h
    unfold simStep
    rw [if_neg h]
    exact ⟨rfl, rfl⟩

/-- Witness for C9: with an empty data map nothing is eligible, and the step
leaves the initial state unchanged. -/
theorem c9_skip_frame_witness :
    (eligiblesAt datosNone ["AAA"] 0).length < 1 ∧
    simStep datosNone ["AAA"] 1 [] [] simInit 0 = simInit :=
  ⟨by decide, (c9_skip_frame datosNone ["AAA"] 1 [] [] simInit 0).1 (by decide)⟩

/-- C6. In every successfully rebalanced month whose held instruments have
the defined realized returns `qs` (undefined ones are excluded by
`retornosMes`, never counted as zero), the new portfolio NAV point equals
the previous one times `1 + mean qs` (or times `1 + 0` when no held
instrument has a defined return); the new benchmark NAV point equals the
previous one times `1 + u` for a defined benchmark return `u`, and times
`1 + 0` when the benchmark return is undefined. -/
theorem c6_forward_return (datos : String → Option (List DBar)) (etfs : List String)
    (top_n : ℕ) (bdf : List DBar) (fechas : List ℕ) (st : SimState) (i : ℕ)
    (qs : List ℚ) (v w : ℚ)
    (hsucc : ¬ (eligiblesAt datos etfs (fechas.getD i 0)).length < top_n)
    (hret : retornosMes datos (nuevosTopAt datos etfs top_n (fechas.getD i 0))
      (fechas.getD (i + 1) 0) = qs.map PVal.num)
    (hv : st.portfolio_value.getLastD (.num 0) = .num v)
    (hw : st.benchmark_value.getLastD (.num 0) = .num w) :
    (simStep datos etfs top_n bdf fechas st i).portfolio_value =
      st.portfolio_value ++
        [.num (v * (1 + (if qs = [] then 0 else qs.sum / qs.length)))] ∧
    (∀ u : ℚ, benchRetAt bdf (fechas.getD (i + 1) 0) = .num u →
      (simStep datos etfs top_n bdf fechas st i).benchmark_value =
        st.benchmark_value ++ [.num (w * (1 + u))]) ∧
    ((benchRetAt bdf (fechas.getD (i + 1) 0)).isna = true →
      (simStep datos etfs top_n bdf fechas st i).benchmark_value =
        st.benchmark_value ++ [.num (w * (1 + 0))]) := by
  refine ⟨?_, ?_, ?_⟩
  · unfold simStep
    rw [if_neg hsucc]
    simp only [hret, hv]
    rcases qs with _ | ⟨q0, qrest⟩
    · simp [PVal.add_num, PVal.mul_num]
    · simp only [npMean, foldl_add_nums, List.length_map]
      rw [PVal.div_num _ _ (Nat.cast_ne_zero.mpr (by simp))]
      simp [PVal.add_num, PVal.mul_num]
  · intro u hu
    unfold simStep
    rw [if_neg hsucc]
    simp only [hu, hw, PVal.isna_num, Bool.false_eq_true, if_false, PVal.add_num,
      PVal.mul_num]
  · intro hna
    unfold simStep
    rw [if_neg hsucc]
    simp only [hna, if_true, hw, PVal.add_num, PVal.mul_num]

unseal Rat.add Rat.mul Rat.sub Rat.inv Rat.ofScientific in
/-- Witness for C6 at a concrete rebalanced month: one held instrument with
realized return 1/114 and a defined benchmark return of 0. -/
theorem c6_forward_return_witness :
    (¬ (eligiblesAt datosRun ["AAA"] 15).length < 1) ∧
    retornosMes datosRun (nuevosTopAt datosRun ["AAA"] 1 15) 16 =
      [(1 : ℚ) / 114].map PVal.num ∧
    (simStep datosRun ["AAA"] 1 exFlat17 (fechasOf exFlat17) simInit 0).portfolio_value =
      simInit.portfolio_value ++
        [.num (100 * (1 + (if [(1 : ℚ) / 114] = [] then 0
          else ([(1 : ℚ) / 114]).sum / ([(1 : ℚ) / 114]).length)))] ∧
    (simStep datosRun ["AAA"] 1 exFlat17 (fechasOf exFlat17) simInit 0).benchmark_value =
      simInit.benchmark_value ++ [.num (100 * (1 + 0))] := by
  have h0 : (fechasOf exFlat17).getD 0 0 = 15 := by decide
  have h1 : (fechasOf exFlat17).getD 1 0 = 16 := by decide
  have hsucc : ¬ (eligiblesAt datosRun ["AAA"] ((fechasOf exFlat17).getD 0 0)).length < 1 := by
    rw [h0]; decide
  have hret : retornosMes datosRun
      (nuevosTopAt datosRun ["AAA"] 1 ((fechasOf exFlat17).getD 0 0))
      ((fechasOf exFlat17).getD 1 0) = [(1 : ℚ) / 114].map PVal.num := by
    rw [h0, h1]; decide
  have hc := c6_forward_return datosRun ["AAA"] 1 exFlat17 (fechasOf exFlat17) simInit 0
    [(1 : ℚ) / 114] 100 100 hsucc hret (by decide) (by decide)
  refine ⟨by rw [← h0]; exact hsucc, by rw [← h0, ← h1]; exact hret, hc.1, ?_⟩
  exact hc.2.1 0 (by rw [h1]; decide)

theorem entryFor_data_eq (datos1 datos2 : String → Option (List DBar)) (fecha : ℕ)
    (tk : String) (h : datos1 tk = datos2 tk) :
    entryFor datos1 fecha tk = entryFor datos2 fecha tk := by
  unfold entryFor
  rw [h]

/-- C7. Failure isolation versus the benchmark: the entire absence of the
benchmark series is fatal (no BacktestResult at all); the run is aborted for
no other reason than that or an empty set of rebalanced months; and removing
any one instrument from the data map (its download failed, it has no usable
bars) only filters that instrument out of each ranking — the other
instruments' entries at every date are untouched. -/
theorem c7_isolation (datos : String → Option (List DBar)) (etfs : List String)
    (benchmark : String) (top_n : ℕ) :
    (datos benchmark = none → ejecutar_backtest datos etfs benchmark top_n = none)
    ∧ (∀ bdf, datos benchmark = some bdf →
        (ejecutar_backtest datos etfs benchmark top_n = none ↔
          (simFold datos etfs top_n bdf).fechas_validas = []))
    ∧ (∀ x, x ≠ benchmark → (removeTicker x datos) benchmark = datos benchmark)
    ∧ (∀ x fecha, eligiblesAt (removeTicker x datos) etfs fecha =
        (eligiblesAt datos etfs fecha).filter (fun p => decide (p.1 ≠ x))) := by
  refine ⟨?_, ?_, ?_, ?_⟩
  · intro h
    simp [ejecutar_backtest, h]
  · intro bdf hb
    simp only [ejecutar_backtest, hb, Option.some_bind]
    by_cases hfv : (simFold datos etfs top_n bdf).fechas_validas = [] <;> simp [hfv]
  · intro x hx
    unfold removeTicker
    rw [if_neg (Ne.symm hx)]
  · intro x fecha
    unfold eligiblesAt
    induction etfs with
    | nil => rfl
    | cons tk rest ih =>
      rw [List.filterMap_cons, List.filterMap_cons]
      by_cases hx : tk = x
      · subst hx
        have hrem : entryFor (removeTicker tk datos) fecha tk = none := by
          unfold entryFor removeTicker
          rw [if_pos rfl]
          rfl
        rw [hrem]
        rcases he : entryFor datos fecha tk with _ | e
        · exact ih
        · have he1 : e.1 = tk := entryFor_fst datos fecha tk e he
          rw [List.filter_cons, he1]
          simpa using ih
      · have hsame : entryFor (removeTicker x datos) fecha tk = entryFor datos fecha tk :=
          entryFor_data_eq _ _ fecha tk (by unfold removeTicker; rw [if_neg hx])
        rw [hsame]
        rcases he : entryFor datos fecha tk with _ | e
        · exact ih
        · have he1 : e.1 = tk := entryFor_fst datos fecha tk e he
          rw [List.filter_cons, he1]
          simp [hx, ih]

unseal Rat.add Rat.mul Rat.sub Rat.inv Rat.ofScientific in
/-- Witness for C7: a missing benchmark gives no result at all, and removing
instrument B from a two-instrument map filters exactly the B entry out of
the ranking. -/
theorem c7_isolation_witness :
    ejecutar_backtest datosNone ["AAA"] "SPY" 1 = none ∧
    eligiblesAt (removeTicker "B" datosTie) ["A", "B"] 15 =
      (eligiblesAt datosTie ["A", "B"] 15).filter (fun p => decide (p.1 ≠ "B")) ∧
    eligiblesAt (removeTicker "B" datosTie) ["A", "B"] 15 =
      [("A", .num (3660375 / 11024))] :=
  ⟨(c7_isolation datosNone ["AAA"] "SPY" 1).1 rfl,
    (c7_isolation datosTie ["A", "B"] "SPY" 1).2.2.2 "B" 15,
    by decide⟩

theorem varSample_nonneg (l : List ℚ) : 0 ≤ varSample l := by
  unfold varSample
  refine div_nonneg ?_ (by positivity)
  refine List.sum_nonneg ?_
  intro x hx
  rcases List.mem_map.mp hx with ⟨y, _, rfl⟩
  exact mul_self_nonneg _

/-- C8. The Sharpe ratio of the metrics calculator equals
`mean(returns) / stdev(returns) * sqrt(12)` whenever the standard deviation
of the period returns is strictly positive, and is exactly 0 when the
standard deviation is zero — the guarded division never produces NaN or
infinity.  (`pctChanges` models `pct_change().dropna()` for NAV series with
nonzero values, which the hypothesis `hnz` records.) -/
theorem c8_sharpe_guard (nav : List ℚ) (_hnz : ∀ x ∈ nav, x ≠ 0) :
    (0 < Real.sqrt (varSample (pctChanges nav)) →
      sharpe nav = ((meanQ (pctChanges nav) : ℝ) /
        Real.sqrt (varSample (pctChanges nav))) * Real.sqrt 12)
    ∧ (Real.sqrt (varSample (pctChanges nav)) = 0 → sharpe nav = 0) := by
  constructor
  · intro hpos
    have hvar : 0 < varSample (pctChanges nav) := by
      have h := Real.sqrt_pos.mp hpos
      exact_mod_cast h
    have hlen : 2 ≤ (pctChanges nav).length := by
      by_contra hcon
      push_neg at hcon
      have hz : varSample (pctChanges nav) = 0 := by
        rcases hl : pctChanges nav with _ | ⟨x, _ | ⟨y, rest⟩⟩
        · simp [varSample]
        · simp [varSample, meanQ]
        · rw [hl] at hcon
          simp only [List.length_cons] at hcon
          omega
      rw [hz] at hvar
      exact absurd hvar (by norm_num)
    unfold sharpe
    rw [if_pos ⟨hlen, hvar⟩]
  · intro h0
    have hnpos : ¬ 0 < varSample (pctChanges nav) := by
      intro hv
      have : 0 < Real.sqrt (varSample (pctChanges nav)) :=
        Real.sqrt_pos.mpr (by exact_mod_cast hv)
      rw [h0] at this
      exact absurd this (by norm_num)
    unfold sharpe
    rw [if_neg (by tauto)]

unseal Rat.add Rat.mul Rat.sub Rat.inv Rat.ofScientific in
/-- Witness for C8 at a concrete NAV series with two returns of positive
sample variance. -/
theorem c8_sharpe_guard_witness :
    sharpe [100, 110, 100] = ((meanQ (pctChanges [100, 110, 100]) : ℝ) /
      Real.sqrt (varSample (pctChanges [100, 110, 100]))) * Real.sqrt 12 :=
  (c8_sharpe_guard [100, 110, 100] (by decide)).1
    (Real.sqrt_pos.mpr (by
      have h : (0 : ℚ) < varSample (pctChanges [100, 110, 100]) := by decide
      exact_mod_cast h))
